import Mathlib

/-
Verification of the configuration cache (ConfigurationDbService) and the
migration bootstrap (DbModule) of the nest-sequelize-db repository.

The embedding models:
  - the in-memory cache `cache: Record<string, ConfigurationEntity | false>`
    as an association list from keys to slots; a slot is either a cached row
    (`pos`), the explicit negative marker `false` (`neg`), or the plain
    suffix-map object stored by `getWildcard` (`wmap`);
  - the backing `configuration` table as a list of rows (field, value,
    updatedAt), with the store's query/insert/update operations as pure list
    functions;
  - event dispatch as a trace of actions; the service's own `@OnEvent`
    listeners for `configuration.set` / `configuration.modified`
    (wildcard invalidation) are applied inline, since `emitAsync` runs the
    listeners before the emitting operation proceeds.
Strings are modelled as lists of characters.
-/

set_option maxHeartbeats 1000000

/-- Character-list strings, the key/field type of the configuration cache. -/
abbrev Str : Type := List Char

/-- Boolean test that `p` is a leading segment of `s` (JS `s.startsWith(p)`). -/
def isPre : Str → Str → Bool
  | [], _ => true
  | _ :: _, [] => false
  | a :: as, b :: bs => decide (a = b) && isPre as bs

/-- Lower-casing of a key, used to model the case-insensitive `iLike` scan. -/
def lowerStr (s : Str) : Str := s.map Char.toLower

/-- The literal cache-key marker `"not-existing:"` prepended by `getWildcard`
and `deleteWildCards` (src/unnamed/part_000 lines 180 and 272). -/
def notExisting : Str := ("not-existing:").data

/-- The property name `"value"` (reading `.value` off a cached object). -/
def valueKey : Str := ("value").data

/-- A persisted `configuration` row: `field` is the primary key, `value` the
JSON payload, `updatedAt` the store-maintained timestamp
(ConfigurationEntity, src/unnamed/part_001-style entity declaration). -/
structure Entry (V : Type) where
  field : Str
  value : V
  updatedAt : Nat
  deriving DecidableEq

/-- One cache slot: a cached row (`pos`), the explicit negative marker stored
as literal `false` in the source (`neg`), or the plain suffix-map object that
`getWildcard` stores under `not-existing:`-prefixed keys (`wmap`). -/
inductive Slot (V : Type) where
  | pos (v : V)
  | neg
  | wmap (m : List (Str × V))
  deriving DecidableEq

/-- The in-memory cache `Record<string, ConfigurationEntity | false>`,
a single map shared by point slots and wildcard slots (line 86). -/
abbrev Cache (V : Type) : Type := List (Str × Slot V)

/-- Names of the dispatched events. -/
inductive EvName where
  | created
  | set
  | modified
  | updated
  | read
  deriving DecidableEq

/-- A `ConfigurationChangedEvent` record `{field, before, after}`. -/
structure Ev (V : Type) where
  field : Str
  before : Option V
  after : V
  deriving DecidableEq

/-- Observable actions of one operation: store queries and event dispatches. -/
inductive Act (V : Type) where
  | findOne (key : Str)
  | scan (pat : Str)
  | rangeScan (wm : Nat)
  | emit (name : EvName) (batch : List (Ev V))
  deriving DecidableEq

/-- Service state: the cache map, the backing table, the poll watermark
`updatedAt` (line 88, initialised to the epoch 0) and the single-flight flag
`cronWorks` (line 90). -/
structure St (V : Type) where
  cache : Cache V
  store : List (Entry V)
  updatedAt : Nat
  cronWorks : Bool
  deriving DecidableEq

variable {V : Type}

/-- State with the `cronWorks` flag replaced. -/
def St.setCron (st : St V) (b : Bool) : St V :=
  ⟨st.cache, st.store, st.updatedAt, b⟩

/-- Cache lookup (JS property read; `none` models a missing own property). -/
def slotGet : Cache V → Str → Option (Slot V)
  | [], _ => none
  | (k', s) :: rest, k => if k' = k then some s else slotGet rest k

/-- Cache assignment `cache[k] = s` (overwrites in place, else appends,
matching JS object key order). -/
def slotPut : Cache V → Str → Slot V → Cache V
  | [], k, s => [(k, s)]
  | (k', s') :: rest, k, s =>
      if k' = k then (k, s) :: rest else (k', s') :: slotPut rest k s

/-- Property deletion `delete cache[k]`. -/
def delKey : Cache V → Str → Cache V
  | [], _ => []
  | (k', s) :: rest, k =>
      if k' = k then delKey rest k else (k', s) :: delKey rest k

/-- Lookup in a plain suffix-map object. -/
def mget : List (Str × V) → Str → Option V
  | [], _ => none
  | (k', v) :: rest, k => if k' = k then some v else mget rest k

/-- Assignment `tmp[k] = v` in a plain suffix-map object. -/
def mput : List (Str × V) → Str → V → List (Str × V)
  | [], k, v => [(k, v)]
  | (k', v') :: rest, k, v =>
      if k' = k then (k, v) :: rest else (k', v') :: mput rest k v

/-- Point lookup `findOne({where: {field: key}})` against the store. -/
def findRow : List (Entry V) → Str → Option (Entry V)
  | [], _ => none
  | r :: rest, k => if r.field = k then some r else findRow rest k

/-- The in-place row update performed by `entity.save()`: the row whose
`field` matches is rewritten with the new value and a fresh store-set
`updatedAt`. -/
def saveStore (s : List (Entry V)) (k : Str) (v : V) (now : Nat) : List (Entry V) :=
  s.map (fun r => if r.field = k then ⟨r.field, v, now⟩ else r)

/-- Ascending-`updatedAt` ordering of rows, the poll query's `ORDER BY`. -/
def entLE (a b : Entry V) : Prop := a.updatedAt ≤ b.updatedAt

/-- Ordered insertion used to model the store's ascending `updatedAt` sort. -/
def insEntry (e : Entry V) : List (Entry V) → List (Entry V)
  | [] => [e]
  | x :: xs => if e.updatedAt ≤ x.updatedAt then e :: x :: xs else x :: insEntry e xs

/-- The store's ascending sort by `updatedAt`. -/
def sortByUpdatedAt : List (Entry V) → List (Entry V)
  | [] => []
  | x :: xs => insEntry x (sortByUpdatedAt xs)

/-- The change-detection query (lines 131-137): all rows with `updatedAt`
strictly greater than the watermark, ordered ascending by `updatedAt`. -/
def pollQuery (store : List (Entry V)) (wm : Nat) : List (Entry V) :=
  sortByUpdatedAt (store.filter (fun r => decide (wm < r.updatedAt)))

/-- The `updatedAt` of the last row of a nonempty list (`changes.pop()`,
lines 154-157). -/
def lastEntryUA (e : Entry V) : List (Entry V) → Nat
  | [] => e.updatedAt
  | x :: xs => lastEntryUA x xs

namespace ConfigurationDbService

/-- Wildcard invalidation (lines 271-278): collect every cache key `x` such
that the string `not-existing:` ++ `field` starts with `x`, then delete each
collected key from the cache. -/
def deleteWildCards (field : Str) (c : Cache V) : Cache V :=
  let searchFor := notExisting ++ field
  let keys := (c.map (fun kv => kv.1)).filter (fun x => isPre x searchFor)
  keys.foldl delKey c

/-- The `before` value used by the poll (line 141): a truthy slot contributes
its `.value` property (for the plain object of a wildcard slot this is its
`"value"` entry, if any), the `false` marker or a missing slot contributes
`undefined`. -/
def beforeOf (c : Cache V) (k : Str) : Option V :=
  match slotGet c k with
  | some (Slot.pos v) => some v
  | some (Slot.wmap m) => mget m valueKey
  | _ => none

/-- The poll's `changes.map` loop (lines 140-145): for each row in order,
read `before` off the current cache, overwrite the slot with the new row, and
collect `{field, before, after}`.  Returns the batch and the updated cache. -/
def applyChanges : Cache V → List (Entry V) → List (Ev V) × Cache V
  | c, [] => ([], c)
  | c, ch :: rest =>
      let before := beforeOf c ch.field
      let r := applyChanges (slotPut c ch.field (Slot.pos ch.value)) rest
      (⟨ch.field, before, ch.value⟩ :: r.1, r.2)

/-- The change-detection poll `handleRefreshConfiguration(isFirstRun)`
(lines 126-161).  If the single-flight flag is set, return immediately.
Otherwise query the rows newer than the watermark (ascending); if none,
finish.  Otherwise build the batch, dispatch it as `configuration.read` when
`isFirstRun` is set, else as `configuration.updated` then
`configuration.modified` (the latter loops back into `onConfigModified`,
which drops matching wildcard slots), and advance the watermark to the last
row's `updatedAt`.  The flag is reset at the end of this non-throwing path. -/
def handleRefreshConfiguration (isFirstRun : Bool) (st : St V) : St V × List (Act V) :=
  if st.cronWorks then (st, [])
  else
    match pollQuery st.store st.updatedAt with
    | [] => (⟨st.cache, st.store, st.updatedAt, false⟩, [Act.rangeScan st.updatedAt])
    | c :: cs =>
        let mapped := (applyChanges st.cache (c :: cs)).1
        let c1 := (applyChanges st.cache (c :: cs)).2
        if isFirstRun then
          (⟨c1, st.store, lastEntryUA c cs, false⟩,
           [Act.rangeScan st.updatedAt, Act.emit EvName.read mapped])
        else
          (⟨mapped.foldl (fun cc e => deleteWildCards e.field cc) c1,
            st.store, lastEntryUA c cs, false⟩,
           [Act.rangeScan st.updatedAt, Act.emit EvName.updated mapped,
            Act.emit EvName.modified mapped])

/-- Result of the `configuration.reload` handler: either the literal
"standard reload in progress" status, or the full cache. -/
inductive ReloadResult (V : Type) where
  | inProgress
  | done (c : Cache V)
  deriving DecidableEq

/-- The `configuration.reload` handler (lines 163-172): if a poll is in
flight return the in-progress status; otherwise reset the watermark to the
epoch, run `handleRefreshConfiguration()` — with its `isFirstRun` parameter
left at its default `false` — and return the resulting cache. -/
def onReloadRequest (st : St V) : ReloadResult V × St V × List (Act V) :=
  if st.cronWorks then (ReloadResult.inProgress, st, [])
  else
    let r := handleRefreshConfiguration false ⟨st.cache, st.store, 0, st.cronWorks⟩
    (ReloadResult.done r.1.cache, r.1, r.2)

/-- Faults that a poll cycle can encounter: the store query throws, or the
first event dispatch of a nonempty batch throws. -/
inductive PollFault where
  | queryFault
  | dispatchFault
  deriving DecidableEq

/-- The poll cycle with throwing collaborators.  `handleRefreshConfiguration`
has no try/finally around lines 131-160: when the store query throws, the
exception propagates after `cronWorks` was set at line 129 and before the
reset at line 160; when a dispatch throws, the cache was already rewritten by
the `changes.map` loop but neither the watermark update nor the flag reset
runs.  `Except.error` carries the state left behind by the escaped
exception. -/
def handleRefreshF (fault : Option PollFault) (isFirstRun : Bool) (st : St V) :
    Except (St V) (St V × List (Act V)) :=
  if st.cronWorks then Except.ok (st, [])
  else
    match fault with
    | some PollFault.queryFault =>
        Except.error ⟨st.cache, st.store, st.updatedAt, true⟩
    | some PollFault.dispatchFault =>
        match pollQuery st.store st.updatedAt with
        | [] => Except.ok (⟨st.cache, st.store, st.updatedAt, false⟩,
                           [Act.rangeScan st.updatedAt])
        | c :: cs =>
            Except.error ⟨(applyChanges st.cache (c :: cs)).2, st.store, st.updatedAt, true⟩
    | none => Except.ok (handleRefreshConfiguration isFirstRun st)

/-- The state left behind by a poll attempt, whether it returned or threw. -/
def exceptSt : Except (St V) (St V × List (Act V)) → St V
  | Except.error s => s
  | Except.ok (s, _) => s

/-- Operation `getWildcard(key)` (lines 179-201): under the cache key
`not-existing:` ++ `key`, serve a cached slot (`false` becomes `undefined`),
or run the case-insensitive scan for fields starting with `key`, build the
suffix-to-value object in row order, cache and return it. -/
def getWildcard (key : Str) (st : St V) : Option (Slot V) × St V × List (Act V) :=
  let cacheKey := notExisting ++ key
  match slotGet st.cache cacheKey with
  | some Slot.neg => (none, st, [])
  | some s => (some s, st, [])
  | none =>
      let rows := st.store.filter (fun r => isPre (lowerStr key) (lowerStr r.field))
      let m := rows.foldl (fun acc r => mput acc (r.field.drop key.length) r.value) []
      (some (Slot.wmap m),
       ⟨slotPut st.cache cacheKey (Slot.wmap m), st.store, st.updatedAt, st.cronWorks⟩,
       [Act.scan key])

/-- Operation `get(key)` on the non-throwing path (lines 209-229 without the
catch block, which is modelled separately by `getRetrySteps`): serve a cached
slot, or run `findOne` and cache the row or the `false` marker.  Reading
`.value` off a wildcard object yields its `"value"` entry. -/
def get (key : Str) (st : St V) : Option V × St V × List (Act V) :=
  match slotGet st.cache key with
  | some Slot.neg => (none, st, [])
  | some (Slot.pos v) => (some v, st, [])
  | some (Slot.wmap m) => (mget m valueKey, st, [])
  | none =>
      match findRow st.store key with
      | some r =>
          (some r.value,
           ⟨slotPut st.cache key (Slot.pos r.value), st.store, st.updatedAt, st.cronWorks⟩,
           [Act.findOne key])
      | none =>
          (none,
           ⟨slotPut st.cache key Slot.neg, st.store, st.updatedAt, st.cronWorks⟩,
           [Act.findOne key])

/-- Outcome of one `findOne` attempt inside `get`: a result, the
"relation does not exist" class of error, or any other error. -/
inductive QueryOutcome (V : Type) where
  | ok (r : Option V)
  | schemaErr
  | otherErr
  deriving DecidableEq

/-- How `get` ends once an attempt stops raising the schema error:
it returns a result or rethrows the error. -/
inductive GetTermination (V : Type) where
  | ret (r : Option V)
  | thrown
  deriving DecidableEq

/-- The retry loop of `get` (lines 211-223): attempt `i` runs `findOne`;
on success return, on the schema-not-ready error wait the fixed delay and
recurse on attempt `i + 1`, on any other error rethrow.  `fuel` counts how
many attempts we are willing to unfold; `none` means the recursion is still
running after `fuel` attempts. -/
def getRetrySteps (resp : Nat → QueryOutcome V) : Nat → Nat → Option (GetTermination V)
  | 0, _ => none
  | fuel + 1, i =>
      match resp i with
      | QueryOutcome.ok r => some (GetTermination.ret r)
      | QueryOutcome.otherErr => some GetTermination.thrown
      | QueryOutcome.schemaErr => getRetrySteps resp fuel (i + 1)

/-- The immediate outcome of a non-schema-error attempt. -/
def settle : QueryOutcome V → Option (GetTermination V)
  | QueryOutcome.ok r => some (GetTermination.ret r)
  | QueryOutcome.otherErr => some GetTermination.thrown
  | QueryOutcome.schemaErr => none

/-- The branch of `set(key, value)` taken when no positive slot exists
(lines 239-245): insert a new row, cache it positively, emit
`configuration.created` and `configuration.set` (the latter loops back into
`onConfigSet`, dropping matching wildcard slots), then return
`this.cache[key].value` — a crash (`none`) if the loop-back deleted the very
slot just written. -/
def setCreate (key : Str) (v : V) (now : Nat) (st : St V) :
    Option (V × St V × List (Act V)) :=
  let c2 := deleteWildCards key (slotPut st.cache key (Slot.pos v))
  match slotGet c2 key with
  | some (Slot.pos v') =>
      some (v', ⟨c2, st.store ++ [⟨key, v, now⟩], st.updatedAt, st.cronWorks⟩,
            [Act.emit EvName.created [⟨key, none, v⟩],
             Act.emit EvName.set [⟨key, none, v⟩]])
  | _ => none

/-- Operation `set(key, value)` (lines 238-257).  With no positive slot
(missing or the `false` marker) it takes the creation branch; with a cached
row it captures `before`, rewrites the slot, persists via `save()` (the store
stamps a fresh `updatedAt`), emits `configuration.set` (looping back into the
wildcard invalidation) and returns `saved.value`.  Calling it on a key whose
slot is a wildcard object would invoke `.save()` on a plain object — a crash,
modelled as `none`. -/
def set (key : Str) (v : V) (now : Nat) (st : St V) :
    Option (V × St V × List (Act V)) :=
  match slotGet st.cache key with
  | none => setCreate key v now st
  | some Slot.neg => setCreate key v now st
  | some (Slot.pos old) =>
      some (v, ⟨deleteWildCards key (slotPut st.cache key (Slot.pos v)),
                saveStore st.store key v now, st.updatedAt, st.cronWorks⟩,
            [Act.emit EvName.set [⟨key, some old, v⟩]])
  | some (Slot.wmap _) => none

/-- Operation `update(key, value)` (lines 259-269): with no positive slot
(missing or the `false` marker) return `undefined` without touching the
store; otherwise insert a brand-new row via `create` (not an in-place
update), cache it, emit only `configuration.modified` (looping back into the
wildcard invalidation) and return `this.cache[key].value` — a crash (`none`)
if the loop-back deleted the slot just written. -/
def update (key : Str) (v : V) (now : Nat) (st : St V) :
    Option (Option V × St V × List (Act V)) :=
  match slotGet st.cache key with
  | none => some (none, st, [])
  | some Slot.neg => some (none, st, [])
  | some _ =>
      let c2 := deleteWildCards key (slotPut st.cache key (Slot.pos v))
      match slotGet c2 key with
      | some (Slot.pos v') =>
          some (some v', ⟨c2, st.store ++ [⟨key, v, now⟩], st.updatedAt, st.cronWorks⟩,
                [Act.emit EvName.modified [⟨key, none, v⟩]])
      | _ => none

end ConfigurationDbService

/-- A migration unit contributed by a feature module, identified by its
file name (src/src/db.module.ts lines 392-441). -/
structure MigUnit where
  name : Str
  deriving DecidableEq

/-- Bootstrap state: the process-wide `DbModule.migrationExecuted` flag
(line 105) and the persisted ledger of applied migration names
(the `SequelizeStorage`). -/
structure BootSt where
  migrationExecuted : Bool
  applied : List Str
  deriving DecidableEq

/-- Observable store actions of the bootstrap: the schema sync and, per
pending migration unit, running its `up()` and recording its name. -/
inductive BootAct where
  | syncSchema
  | applyUp (name : Str)
  | recordApplied (name : Str)
  deriving DecidableEq

/-- The literal dialect name `"sqlite"` checked at line 381. -/
def sqliteStr : Str := ("sqlite").data

namespace DbModule

/-- `umzug.up()` (line 454): apply, in declared order, every unit whose name
is not yet recorded, recording each success before moving on. -/
def umzugUp : List MigUnit → List Str → List Str × List BootAct
  | [], applied => (applied, [])
  | u :: rest, applied =>
      if u.name ∈ applied then umzugUp rest applied
      else
        let r := umzugUp rest (applied ++ [u.name])
        (r.1, BootAct.applyUp u.name :: BootAct.recordApplied u.name :: r.2)

/-- `DbModule.migrate` (lines 365-458): skip the migration runner entirely on
the sqlite test backend, otherwise run `umzug.up()` over the collected
migration files. -/
def migrate (dialect : Str) (units : List MigUnit) (applied : List Str) :
    List Str × List BootAct :=
  if dialect = sqliteStr then (applied, [])
  else umzugUp units applied

/-- `DbModule.onApplicationBootstrap` (lines 268-363): if the process-wide
flag is already set, return immediately; otherwise set it, sync the schema,
and run the migrations. -/
def onApplicationBootstrap (dialect : Str) (units : List MigUnit) (st : BootSt) :
    BootSt × List BootAct :=
  if st.migrationExecuted then (st, [])
  else
    let r := migrate dialect units st.applied
    (⟨true, r.1⟩, BootAct.syncSchema :: r.2)

end DbModule

/-- Concrete state for exercising the reload path: empty cache, one persisted
row `a ↦ 7` stamped at time 5, watermark 9, no poll in flight. -/
def c1St : St Nat := ⟨[], [⟨("a").data, 7, 5⟩], 9, false⟩

/-- Recogniser for a `configuration.read` dispatch in a trace. -/
def isReadEmit : Act Nat → Bool
  | Act.emit EvName.read _ => true
  | _ => false

/-- Concrete state for exercising the poll's error paths: empty cache, one
persisted row newer than the watermark, no poll in flight. -/
def c2St : St Nat := ⟨[], [⟨("a").data, 7, 5⟩], 0, false⟩

/-- The state `c2St` is left in when the poll's store query throws: unchanged
except that `cronWorks` is stuck at `true`. -/
def c2Stuck : St Nat := ⟨[], [⟨("a").data, 7, 5⟩], 0, true⟩

/-- Attempt outcomes where every `findOne` raises the schema-not-ready
error. -/
def allSchemaErr : Nat → ConfigurationDbService.QueryOutcome Nat :=
  fun _ => ConfigurationDbService.QueryOutcome.schemaErr

/-- Attempt outcomes where the schema error clears after two attempts. -/
def respEx : Nat → ConfigurationDbService.QueryOutcome Nat :=
  fun i => if i < 2 then ConfigurationDbService.QueryOutcome.schemaErr
           else ConfigurationDbService.QueryOutcome.ok (some 7)

/-- Concrete state for the wildcard-invalidation witness: empty cache and a
single row `a.b ↦ 1`. -/
def c4St : St Nat := ⟨[], [⟨("a.b").data, 1, 1⟩], 0, false⟩

/-- Concrete state for the ordering witness: two rows newer than the
watermark 2, persisted out of `updatedAt` order. -/
def c5St : St Nat := ⟨[], [⟨("b").data, 2, 7⟩, ⟨("a").data, 1, 3⟩], 2, false⟩

/-- Concrete state for the `update` witness: key `x` cached positively and
persisted. -/
def c6St : St Nat := ⟨[(("x").data, Slot.pos 5)], [⟨("x").data, 5, 1⟩], 1, false⟩

/-- The empty service state. -/
def emptySt : St Nat := ⟨[], [], 0, false⟩

section CacheLemmas

variable {V : Type}

theorem slotGet_put (c : Cache V) (k : Str) (s : Slot V) (k' : Str) :
    slotGet (slotPut c k s) k' = if k' = k then some s else slotGet c k' := by
  induction c with
  | nil =>
      by_cases h : k' = k
      · subst h
        simp [slotPut, slotGet]
      · have h2 : ¬ k = k' := fun hc => h hc.symm
        simp [slotPut, slotGet, h, h2]
  | cons kv rest ih =>
      obtain ⟨k0, s0⟩ := kv
      by_cases h0 : k0 = k
      · subst h0
        by_cases h : k' = k0
        · subst h
          simp [slotPut, slotGet]
        · have h2 : ¬ k0 = k' := fun hc => h hc.symm
          simp [slotPut, slotGet, h, h2]
      · by_cases h : k0 = k'
        · subst h
          simp [slotPut, slotGet, h0]
        · simp [slotPut, slotGet, h0, h, ih]

theorem slotGet_delKey (c : Cache V) (k0 k : Str) :
    slotGet (delKey c k0) k = if k = k0 then none else slotGet c k := by
  induction c with
  | nil =>
      by_cases h : k = k0 <;> simp [delKey, slotGet, h]
  | cons kv rest ih =>
      obtain ⟨k1, s1⟩ := kv
      by_cases h1 : k1 = k0
      · subst h1
        by_cases h : k = k1
        · subst h
          simp [delKey, slotGet, ih]
        · have h2 : ¬ k1 = k := fun hc => h hc.symm
          simp [delKey, slotGet, h, h2, ih]
      · by_cases h : k1 = k
        · subst h
          have h2 : ¬ k1 = k0 := h1
          simp [delKey, slotGet, h2]
        · simp [delKey, slotGet, h1, h, ih]

theorem slotGet_foldl_delKey (ks : List Str) (c : Cache V) (k : Str) :
    slotGet (ks.foldl delKey c) k = if k ∈ ks then none else slotGet c k := by
  induction ks generalizing c with
  | nil => simp
  | cons k0 rest ih =>
      simp only [List.foldl_cons, ih, slotGet_delKey, List.mem_cons]
      by_cases hr : k ∈ rest
      · simp [hr]
      · by_cases h0 : k = k0 <;> simp [hr, h0]

theorem slotGet_none_of_not_mem (c : Cache V) (k : Str)
    (h : k ∉ c.map (fun kv => kv.1)) : slotGet c k = none := by
  induction c with
  | nil => rfl
  | cons kv rest ih =>
      obtain ⟨k0, s0⟩ := kv
      simp only [List.map_cons, List.mem_cons] at h
      push_neg at h
      have : ¬ k0 = k := fun hc => h.1 hc.symm
      simp [slotGet, this, ih h.2]

theorem slotGet_deleteWildCards (f : Str) (c : Cache V) (k : Str) :
    slotGet (ConfigurationDbService.deleteWildCards f c) k =
      if isPre k (notExisting ++ f) = true then none else slotGet c k := by
  unfold ConfigurationDbService.deleteWildCards
  simp only [slotGet_foldl_delKey]
  by_cases hp : isPre k (notExisting ++ f) = true
  · simp only [hp, if_true]
    by_cases hm : k ∈ c.map (fun kv => kv.1)
    · simp [List.mem_filter, hm, hp]
    · simp [List.mem_filter, hm, slotGet_none_of_not_mem c k hm]
  · have : k ∉ (c.map (fun kv => kv.1)).filter (fun x => isPre x (notExisting ++ f)) := by
      intro hk
      exact hp (List.mem_filter.mp hk).2
    simp [this, hp]

end CacheLemmas

section StrLemmas

theorem isPre_append (a b : Str) : isPre a (a ++ b) = true := by
  induction a with
  | nil => rfl
  | cons x xs ih => simp [isPre, ih]

theorem lowerStr_append (a b : Str) : lowerStr (a ++ b) = lowerStr a ++ lowerStr b := by
  simp [lowerStr]

theorem drop_len_append (a b : Str) : (a ++ b).drop a.length = b := by
  induction a with
  | nil => simp
  | cons x xs ih => simp

end StrLemmas

section MapLemmas

variable {V : Type}

theorem mget_put (m : List (Str × V)) (k : Str) (v : V) (k' : Str) :
    mget (mput m k v) k' = if k' = k then some v else mget m k' := by
  induction m with
  | nil =>
      by_cases h : k' = k
      · subst h
        simp [mput, mget]
      · have h2 : ¬ k = k' := fun hc => h hc.symm
        simp [mput, mget, h, h2]
  | cons kv rest ih =>
      obtain ⟨k0, v0⟩ := kv
      by_cases h0 : k0 = k
      · subst h0
        by_cases h : k' = k0
        · subst h
          simp [mput, mget]
        · have h2 : ¬ k0 = k' := fun hc => h hc.symm
          simp [mput, mget, h, h2]
      · by_cases h : k0 = k'
        · subst h
          simp [mput, mget, h0]
        · simp [mput, mget, h0, h, ih]

theorem mget_foldl_of_all (sfx : Entry V → Str) (s : Str) (v : V) :
    ∀ (rows : List (Entry V)) (m : List (Str × V)),
      (∀ r ∈ rows, sfx r = s → r.value = v) →
      ((∃ r ∈ rows, sfx r = s) ∨ mget m s = some v) →
      mget (rows.foldl (fun acc r => mput acc (sfx r) r.value) m) s = some v := by
  intro rows
  induction rows with
  | nil =>
      intro m _ hd
      rcases hd with h | h
      · simp at h
      · simpa using h
  | cons r rest ih =>
      intro m hall hd
      simp only [List.foldl_cons]
      apply ih
      · intro r' hr' hs
        exact hall r' (List.mem_cons_of_mem r hr') hs
      · rcases hd with h | h
        · rcases h with ⟨r0, hr0, hs0⟩
          rcases List.mem_cons.mp hr0 with h0 | h0
          · subst h0
            right
            have hv := hall r0 (List.mem_cons_self r0 rest) hs0
            simp [mget_put, hs0, hv]
          · exact Or.inl ⟨r0, h0, hs0⟩
        · right
          rw [mget_put]
          by_cases he : s = sfx r
          · have hv := hall r (List.mem_cons_self r rest) he.symm
            simp [he, hv]
          · simp [he, h]

end MapLemmas

section SortLemmas

variable {V : Type}

theorem mem_insEntry (e x : Entry V) (l : List (Entry V)) :
    x ∈ insEntry e l ↔ x = e ∨ x ∈ l := by
  induction l with
  | nil => simp [insEntry]
  | cons y ys ih =>
      by_cases h : e.updatedAt ≤ y.updatedAt
      · simp [insEntry, h]
      · simp [insEntry, h, ih]
        tauto

theorem mem_sortByUpdatedAt (x : Entry V) (l : List (Entry V)) :
    x ∈ sortByUpdatedAt l ↔ x ∈ l := by
  induction l with
  | nil => simp [sortByUpdatedAt]
  | cons y ys ih => simp [sortByUpdatedAt, mem_insEntry, ih]

theorem insEntry_ne_nil (e : Entry V) (l : List (Entry V)) : insEntry e l ≠ [] := by
  cases l with
  | nil => simp [insEntry]
  | cons y ys =>
      by_cases h : e.updatedAt ≤ y.updatedAt <;> simp [insEntry, h]

theorem pairwise_insEntry (e : Entry V) (l : List (Entry V))
    (h : l.Pairwise entLE) : (insEntry e l).Pairwise entLE := by
  induction l with
  | nil => simp [insEntry, entLE]
  | cons x xs ih =>
      rw [List.pairwise_cons] at h
      by_cases hle : e.updatedAt ≤ x.updatedAt
      · simp only [insEntry, hle, if_true]
        rw [List.pairwise_cons]
        refine ⟨?_, ?_⟩
        · intro y hy
          rcases List.mem_cons.mp hy with h0 | h0
          · subst h0
            exact hle
          · exact Nat.le_trans hle (h.1 y h0)
        · rw [List.pairwise_cons]
          exact h
      · simp only [insEntry, hle, if_false]
        rw [List.pairwise_cons]
        refine ⟨?_, ih h.2⟩
        intro y hy
        rcases (mem_insEntry e y xs).mp hy with h0 | h0
        · subst h0
          exact Nat.le_of_lt (Nat.lt_of_not_le hle)
        · exact h.1 y h0

theorem pairwise_sortByUpdatedAt (l : List (Entry V)) :
    (sortByUpdatedAt l).Pairwise entLE := by
  induction l with
  | nil => simp [sortByUpdatedAt]
  | cons x xs ih => exact pairwise_insEntry x (sortByUpdatedAt xs) ih

theorem lastEntryUA_spec :
    ∀ (cs : List (Entry V)) (c : Entry V),
      ∃ l, (c :: cs).getLast? = some l ∧ lastEntryUA c cs = l.updatedAt := by
  intro cs
  induction cs with
  | nil =>
      intro c
      exact ⟨c, rfl, rfl⟩
  | cons x xs ih =>
      intro c
      rcases ih x with ⟨l, hl, hu⟩
      exact ⟨l, by rw [List.getLast?_cons_cons]; exact hl, hu⟩

end SortLemmas

namespace ConfigurationDbService

variable {V : Type}

theorem applyChanges_fields (c : Cache V) (l : List (Entry V)) :
    ((applyChanges c l).1).map Ev.field = l.map Entry.field := by
  induction l generalizing c with
  | nil => simp [applyChanges]
  | cons ch rest ih => simp [applyChanges, ih]

theorem getWildcard_store (key : Str) (st : St V) :
    (getWildcard key st).2.1.store = st.store := by
  unfold getWildcard
  rcases h : slotGet st.cache (notExisting ++ key) with _ | s
  · simp [h]
  · cases s <;> simp [h]

theorem getRetrySteps_none_of_schema (resp : Nat → QueryOutcome V) :
    ∀ (n i : Nat), (∀ j, j < n → resp (i + j) = QueryOutcome.schemaErr) →
      getRetrySteps resp n i = none := by
  intro n
  induction n with
  | zero => intro i _; rfl
  | succ m ih =>
      intro i h
      have h0 : resp i = QueryOutcome.schemaErr := by
        have := h 0 (Nat.succ_pos m)
        simpa using this
      have hrest : ∀ j, j < m → resp (i + 1 + j) = QueryOutcome.schemaErr := by
        intro j hj
        have := h (j + 1) (Nat.succ_lt_succ hj)
        have harith : i + (j + 1) = i + 1 + j := by omega
        rwa [harith] at this
      simp [getRetrySteps, h0, ih (i + 1) hrest]

theorem getRetrySteps_settles (resp : Nat → QueryOutcome V) :
    ∀ (k i : Nat), (∀ j, j < k → resp (i + j) = QueryOutcome.schemaErr) →
      getRetrySteps resp (k + 1) i = settle (resp (i + k)) := by
  intro k
  induction k with
  | zero =>
      intro i _
      rcases h : resp i with r | _ | _ <;> simp [getRetrySteps, settle, h]
  | succ m ih =>
      intro i h
      have h0 : resp i = QueryOutcome.schemaErr := by
        have := h 0 (Nat.succ_pos m)
        simpa using this
      have hrest : ∀ j, j < m → resp (i + 1 + j) = QueryOutcome.schemaErr := by
        intro j hj
        have := h (j + 1) (Nat.succ_lt_succ hj)
        have harith : i + (j + 1) = i + 1 + j := by omega
        rwa [harith] at this
      have harith2 : i + 1 + m = i + (m + 1) := by omega
      have hstep : getRetrySteps resp (m + 1 + 1) i = getRetrySteps resp (m + 1) (i + 1) := by
        show (match resp i with
          | QueryOutcome.ok r => some (GetTermination.ret r)
          | QueryOutcome.otherErr => some GetTermination.thrown
          | QueryOutcome.schemaErr => getRetrySteps resp (m + 1) (i + 1)) =
            getRetrySteps resp (m + 1) (i + 1)
        rw [h0]
      rw [hstep, ih (i + 1) hrest, harith2]

end ConfigurationDbService

namespace ConfigurationDbService

variable {V : Type}

theorem set_create_eq (st : St V) (key : Str) (v : V) (now : Nat)
    (hcase : slotGet st.cache key = none ∨ slotGet st.cache key = some Slot.neg)
    (hcol : isPre key (notExisting ++ key) = false) :
    set key v now st = some (v,
      ⟨deleteWildCards key (slotPut st.cache key (Slot.pos v)),
       st.store ++ [⟨key, v, now⟩], st.updatedAt, st.cronWorks⟩,
      [Act.emit EvName.created [⟨key, none, v⟩],
       Act.emit EvName.set [⟨key, none, v⟩]]) := by
  have hc2 : slotGet (deleteWildCards key (slotPut st.cache key (Slot.pos v))) key
      = some (Slot.pos v) := by
    rw [slotGet_deleteWildCards]
    simp [hcol, slotGet_put]
  rcases hcase with h | h <;> simp [set, setCreate, h, hc2]

/-- Claim C7: for a key never written to the store, `get` returns "not
found", caches the explicit `false` marker, and a second `get` returns
"not found" again without issuing a second store query (its trace holds no
`findOne`, and the state is unchanged). -/
theorem get_negative_caching (st : St V) (k : Str)
    (h1 : slotGet st.cache k = none)
    (h2 : findRow st.store k = none) :
    ∃ st2, get k st = (none, st2, [Act.findOne k]) ∧
      slotGet st2.cache k = some Slot.neg ∧
      get k st2 = (none, st2, []) := by
  refine ⟨⟨slotPut st.cache k Slot.neg, st.store, st.updatedAt, st.cronWorks⟩, ?_, ?_, ?_⟩
  · simp [get, h1, h2]
  · simp [slotGet_put]
  · simp [get, slotGet_put]

/-- Witness for C7 at the empty state and the key `q`. -/
theorem get_negative_caching_witness :
    slotGet emptySt.cache (("q").data) = none ∧
    findRow emptySt.store (("q").data) = none ∧
    ∃ st2, get (("q").data) emptySt = (none, st2, [Act.findOne (("q").data)]) ∧
      slotGet st2.cache (("q").data) = some Slot.neg ∧
      get (("q").data) st2 = (none, st2, []) :=
  ⟨by decide, by decide,
   get_negative_caching emptySt (("q").data) (by decide) (by decide)⟩

/-- Claim C8: `set(k, v)` immediately followed by `get(k)` returns `v`, and
that `get` is served from memory — its trace holds no store query and the
state is unchanged.  The hypotheses pin the slot of `k` to the shapes a
configuration key can have (missing, the negative marker, or a cached row)
and rule out the degenerate key collision in which `k` is itself a leading
segment of `not-existing:` ++ `k`. -/
theorem set_get_roundtrip (st : St V) (k : Str) (v : V) (now : Nat)
    (hcol : isPre k (notExisting ++ k) = false)
    (hcase : slotGet st.cache k = none ∨ slotGet st.cache k = some Slot.neg ∨
             ∃ w, slotGet st.cache k = some (Slot.pos w)) :
    ∃ st2 tr, set k v now st = some (v, st2, tr) ∧ get k st2 = (some v, st2, []) := by
  have hkey : slotGet (deleteWildCards k (slotPut st.cache k (Slot.pos v))) k
      = some (Slot.pos v) := by
    rw [slotGet_deleteWildCards]
    simp [hcol, slotGet_put]
  rcases hcase with h | h | ⟨w, h⟩
  · refine ⟨⟨deleteWildCards k (slotPut st.cache k (Slot.pos v)),
        st.store ++ [⟨k, v, now⟩], st.updatedAt, st.cronWorks⟩, _,
        set_create_eq st k v now (Or.inl h) hcol, ?_⟩
    simp [get, hkey]
  · refine ⟨⟨deleteWildCards k (slotPut st.cache k (Slot.pos v)),
        st.store ++ [⟨k, v, now⟩], st.updatedAt, st.cronWorks⟩, _,
        set_create_eq st k v now (Or.inr h) hcol, ?_⟩
    simp [get, hkey]
  · refine ⟨⟨deleteWildCards k (slotPut st.cache k (Slot.pos v)),
        saveStore st.store k v now, st.updatedAt, st.cronWorks⟩,
        [Act.emit EvName.set [⟨k, some w, v⟩]], ?_, ?_⟩
    · simp [set, h]
    · simp [get, hkey]

/-- Witness for C8 at the empty state, key `a`, value 7. -/
theorem set_get_roundtrip_witness :
    isPre (("a").data) (notExisting ++ ("a").data) = false ∧
    (slotGet emptySt.cache (("a").data) = none ∨
     slotGet emptySt.cache (("a").data) = some Slot.neg ∨
     ∃ w, slotGet emptySt.cache (("a").data) = some (Slot.pos w)) ∧
    ∃ st2 tr, set (("a").data) 7 1 emptySt = some (7, st2, tr) ∧
      get (("a").data) st2 = (some 7, st2, []) :=
  ⟨by decide, Or.inl (by decide),
   set_get_roundtrip emptySt (("a").data) 7 1 (by decide) (Or.inl (by decide))⟩

/-- Claim C6: `update(k, v)` with no positive cached entry (missing slot or
the negative marker) returns "not found" leaving state and trace empty;
with a positively cached entry it appends a brand-new row to the store (no
in-place update), emits only a `configuration.modified` event, and returns
the stored value. -/
theorem update_semantics (st : St V) (k : Str) (v : V) (now : Nat) :
    ((slotGet st.cache k = none ∨ slotGet st.cache k = some Slot.neg) →
        update k v now st = some (none, st, [])) ∧
    (∀ w, slotGet st.cache k = some (Slot.pos w) →
        isPre k (notExisting ++ k) = false →
        update k v now st = some (some v,
          ⟨deleteWildCards k (slotPut st.cache k (Slot.pos v)),
           st.store ++ [⟨k, v, now⟩], st.updatedAt, st.cronWorks⟩,
          [Act.emit EvName.modified [⟨k, none, v⟩]])) := by
  constructor
  · intro h
    rcases h with h | h <;> simp [update, h]
  · intro w h hcol
    have hc2 : slotGet (deleteWildCards k (slotPut st.cache k (Slot.pos v))) k
        = some (Slot.pos v) := by
      rw [slotGet_deleteWildCards]
      simp [hcol, slotGet_put]
    simp [update, h, hc2]

/-- Witness for C6: the refusal branch at the empty state and the
create-a-new-row branch at `c6St`. -/
theorem update_semantics_witness :
    update (("x").data) 9 2 emptySt = some (none, emptySt, []) ∧
    update (("x").data) 9 2 c6St = some (some 9,
      ⟨deleteWildCards (("x").data) (slotPut c6St.cache (("x").data) (Slot.pos 9)),
       c6St.store ++ [⟨("x").data, 9, 2⟩], c6St.updatedAt, c6St.cronWorks⟩,
      [Act.emit EvName.modified [⟨("x").data, none, 9⟩]]) :=
  ⟨(update_semantics emptySt (("x").data) 9 2).1 (Or.inl (by decide)),
   (update_semantics c6St (("x").data) 9 2).2 5 (by decide) (by decide)⟩

/-- Claim C10: `deleteWildCards(field)` removes exactly the cache entries
whose key is a leading segment of the string `not-existing:` ++ `field` —
and since point slots and wildcard slots share one map, this evicts point
slots such as `not` along with matching wildcard slots, as the concrete
second conjunct shows (the point slot `not` and the wildcard slot for the
`a` scan are evicted by a write to `ab`; the point slot `x` survives). -/
theorem deleteWildCards_evicts_pre_keys :
    (∀ (W : Type) (c : Cache W) (f k : Str),
        slotGet (deleteWildCards f c) k =
          if isPre k (notExisting ++ f) = true then none else slotGet c k) ∧
    deleteWildCards (("ab").data)
        [((("not").data), Slot.pos (7 : Nat)),
         (notExisting ++ ("a").data, Slot.wmap []),
         ((("x").data), Slot.pos 2)] =
      [((("x").data), Slot.pos 2)] := by
  constructor
  · intro W c f k
    exact slotGet_deleteWildCards f c k
  · decide

end ConfigurationDbService

namespace DbModule

/-- Claim C9: a second `onApplicationBootstrap` invocation in the same
process is a no-op — the process-wide flag makes it return immediately with
no store actions (no schema sync, no migration unit applied or recorded) and
an unchanged state, whatever the first invocation did. -/
theorem onApplicationBootstrap_second_noop (dialect : Str) (units : List MigUnit)
    (st : BootSt) :
    onApplicationBootstrap dialect units (onApplicationBootstrap dialect units st).1 =
      ((onApplicationBootstrap dialect units st).1, []) := by
  have hstep : ∀ s : BootSt, s.migrationExecuted = true →
      onApplicationBootstrap dialect units s = (s, []) := by
    intro s hs
    unfold onApplicationBootstrap
    simp [hs]
  have hx : (onApplicationBootstrap dialect units st).1.migrationExecuted = true := by
    unfold onApplicationBootstrap
    cases h : st.migrationExecuted <;> simp [h]
  exact hstep _ hx

end DbModule

namespace ConfigurationDbService

variable {V : Type}

/-- Counterexample to C3: with the schema-not-ready error persisting on every
attempt, no number of retry steps ever makes `get`'s retry loop return — the
recursion at lines 216-220 carries no retry bound, so it is not the case that
some bounded retry count makes `get` terminate under a persistent error. -/
theorem get_retry_unbounded_cex :
    ¬ ∃ n, (getRetrySteps allSchemaErr n 0).isSome = true := by
  rintro ⟨n, hn⟩
  rw [getRetrySteps_none_of_schema allSchemaErr n 0 (fun j _ => rfl)] at hn
  simp at hn

/-- Amended C3: the retry on the schema-not-ready error class uses a fixed
delay but no retry bound.  `get` settles exactly at the first attempt whose
outcome is not that error (returning its result or rethrowing), and every
smaller attempt budget leaves the recursion still running — so if the error
persists on every attempt, `get` recurses indefinitely. -/
theorem get_retry_first_nonschema (resp : Nat → QueryOutcome V) (k : Nat)
    (h1 : ∀ j, j < k → resp j = QueryOutcome.schemaErr)
    (h2 : resp k ≠ QueryOutcome.schemaErr) :
    getRetrySteps resp (k + 1) 0 = settle (resp k) ∧
    (settle (resp k)).isSome = true ∧
    ∀ n, n ≤ k → getRetrySteps resp n 0 = none := by
  refine ⟨?_, ?_, ?_⟩
  · have h := getRetrySteps_settles resp k 0 (fun j hj => by simpa using h1 j hj)
    simpa using h
  · rcases h : resp k with r | _ | _ <;> simp [settle, h]
    exact h2 h
  · intro n hn
    exact getRetrySteps_none_of_schema resp n 0
      (fun j hj => by simpa using h1 j (Nat.lt_of_lt_of_le hj hn))

/-- Witness for C3's amended claim: the schema error clears at attempt 2. -/
theorem get_retry_first_nonschema_witness :
    (∀ j, j < 2 → respEx j = QueryOutcome.schemaErr) ∧
    respEx 2 ≠ QueryOutcome.schemaErr ∧
    (getRetrySteps respEx 3 0 = settle (respEx 2) ∧
     (settle (respEx 2)).isSome = true ∧
     ∀ n, n ≤ 2 → getRetrySteps respEx n 0 = none) :=
  ⟨by decide, by decide, get_retry_first_nonschema respEx 2 (by decide) (by decide)⟩

/-- Counterexample to C2: starting from `c2St` (no poll in flight, one row
newer than the watermark), a poll whose store query throws leaves the
`cronWorks` flag set; from that stuck state every later poll is a silent
no-op and every reload reports "in progress" — the guard is not released on
the error exit paths, and the blockage is permanent.  A poll whose event
dispatch throws gets stuck the same way. -/
theorem cronWorks_error_path_cex :
    handleRefreshF (some PollFault.queryFault) false c2St = Except.error c2Stuck ∧
    c2Stuck.cronWorks = true ∧
    handleRefreshF none false c2Stuck = Except.ok (c2Stuck, []) ∧
    (onReloadRequest c2Stuck).1 = ReloadResult.inProgress ∧
    (exceptSt (handleRefreshF (some PollFault.dispatchFault) false c2St)).cronWorks = true := by
  refine ⟨rfl, rfl, rfl, rfl, by decide⟩

/-- Amended C2: a concurrent call while a poll is in flight is a no-op that
returns immediately; the guard flag is reset on the non-throwing exit paths
of the poll; but when the store query throws, the escaped exception leaves
`cronWorks` set (there is no release on the error path), and a reload issued
against a state whose flag is set only reports "in progress". -/
theorem cronWorks_release_behavior (st : St V) (b : Bool) (f : Option PollFault) :
    handleRefreshF f b (st.setCron true) = Except.ok (st.setCron true, []) ∧
    (handleRefreshConfiguration b (st.setCron false)).1.cronWorks = false ∧
    (exceptSt (handleRefreshF (some PollFault.queryFault) b (st.setCron false))).cronWorks
      = true ∧
    (onReloadRequest (st.setCron true)).1 = ReloadResult.inProgress := by
  refine ⟨rfl, ?_, rfl, rfl⟩
  show (handleRefreshConfiguration b ⟨st.cache, st.store, st.updatedAt, false⟩).1.cronWorks
      = false
  unfold handleRefreshConfiguration
  rcases hq : pollQuery st.store st.updatedAt with _ | ⟨c, cs⟩ <;> cases b <;> simp [hq]

end ConfigurationDbService

namespace ConfigurationDbService

variable {V : Type}

/-- Claim C5: a poll cycle that observes at least one row newer than the
watermark dispatches exactly the batch built from the query result (in query
order, as the field lists show), the query result is sorted ascending by
`updatedAt` and consists of rows strictly newer than the watermark, and the
watermark after the poll equals the `updatedAt` of the last row processed. -/
theorem handleRefreshConfiguration_order_watermark (st : St V)
    (h1 : st.cronWorks = false)
    (h2 : pollQuery st.store st.updatedAt ≠ []) :
    (handleRefreshConfiguration false st).2 =
      [Act.rangeScan st.updatedAt,
       Act.emit EvName.updated (applyChanges st.cache (pollQuery st.store st.updatedAt)).1,
       Act.emit EvName.modified (applyChanges st.cache (pollQuery st.store st.updatedAt)).1] ∧
    ((applyChanges st.cache (pollQuery st.store st.updatedAt)).1).map Ev.field =
      (pollQuery st.store st.updatedAt).map Entry.field ∧
    (pollQuery st.store st.updatedAt).Pairwise entLE ∧
    (∀ r ∈ pollQuery st.store st.updatedAt, st.updatedAt < r.updatedAt) ∧
    (∃ last, (pollQuery st.store st.updatedAt).getLast? = some last ∧
      (handleRefreshConfiguration false st).1.updatedAt = last.updatedAt) := by
  rcases hq : pollQuery st.store st.updatedAt with _ | ⟨c, cs⟩
  · exact absurd hq h2
  refine ⟨?_, ?_, ?_, ?_, ?_⟩
  · unfold handleRefreshConfiguration
    simp [h1, hq]
  · exact applyChanges_fields st.cache (c :: cs)
  · rw [← hq]
    exact pairwise_sortByUpdatedAt _
  · intro r hr
    have hmem : r ∈ sortByUpdatedAt
        (st.store.filter (fun r => decide (st.updatedAt < r.updatedAt))) := by
      show r ∈ pollQuery st.store st.updatedAt
      rw [hq]
      exact hr
    have h3 := (mem_sortByUpdatedAt r _).mp hmem
    have h4 := List.mem_filter.mp h3
    simpa using h4.2
  · rcases lastEntryUA_spec cs c with ⟨l, hl, hu⟩
    refine ⟨l, hl, ?_⟩
    unfold handleRefreshConfiguration
    simp [h1, hq, hu]

/-- Witness for C5 at `c5St`: two rows newer than the watermark, persisted
out of timestamp order. -/
theorem handleRefreshConfiguration_order_watermark_witness :
    c5St.cronWorks = false ∧
    pollQuery c5St.store c5St.updatedAt ≠ [] ∧
    ((handleRefreshConfiguration false c5St).2 =
      [Act.rangeScan c5St.updatedAt,
       Act.emit EvName.updated
         (applyChanges c5St.cache (pollQuery c5St.store c5St.updatedAt)).1,
       Act.emit EvName.modified
         (applyChanges c5St.cache (pollQuery c5St.store c5St.updatedAt)).1] ∧
     ((applyChanges c5St.cache (pollQuery c5St.store c5St.updatedAt)).1).map Ev.field =
       (pollQuery c5St.store c5St.updatedAt).map Entry.field ∧
     (pollQuery c5St.store c5St.updatedAt).Pairwise entLE ∧
     (∀ r ∈ pollQuery c5St.store c5St.updatedAt, c5St.updatedAt < r.updatedAt) ∧
     (∃ last, (pollQuery c5St.store c5St.updatedAt).getLast? = some last ∧
       (handleRefreshConfiguration false c5St).1.updatedAt = last.updatedAt)) :=
  ⟨by decide, by decide,
   handleRefreshConfiguration_order_watermark c5St (by decide) (by decide)⟩

/-- Counterexample to C1: at `c1St` (one persisted row, no poll in flight)
the explicit reload dispatches the batch as `configuration.updated` and
`configuration.modified` — `onReloadRequest` calls the poll without setting
its `isFirstRun` parameter — and dispatches no `configuration.read` event at
all, contrary to the claim that the batch is dispatched as `read` rather
than `updated`/`modified`. -/
theorem onReloadRequest_read_cex :
    (onReloadRequest c1St).2.2 =
      [Act.rangeScan 0,
       Act.emit EvName.updated [⟨("a").data, none, 7⟩],
       Act.emit EvName.modified [⟨("a").data, none, 7⟩]] ∧
    (onReloadRequest c1St).2.2.all (fun a => !(isReadEmit a)) = true := by
  exact ⟨by decide, by decide⟩

/-- Amended C1: an explicit reload received while no poll is in flight
resets the watermark to the epoch, re-runs the poll synchronously, and
returns the full resulting cache to the caller; the resulting batch covers
every persisted row (every row being stamped after the epoch), but it is
dispatched as `configuration.updated` and `configuration.modified` events,
not as a `configuration.read` event, because the reload path leaves the
poll's `isFirstRun` parameter at its default `false`. -/
theorem onReloadRequest_dispatch (st : St V)
    (h1 : st.cronWorks = false)
    (h2 : st.store ≠ [])
    (h3 : ∀ r ∈ st.store, 0 < r.updatedAt) :
    ∃ c cs, pollQuery st.store 0 = c :: cs ∧
      (onReloadRequest st).2.2 =
        [Act.rangeScan 0,
         Act.emit EvName.updated (applyChanges st.cache (c :: cs)).1,
         Act.emit EvName.modified (applyChanges st.cache (c :: cs)).1] ∧
      (onReloadRequest st).1 = ReloadResult.done (onReloadRequest st).2.1.cache ∧
      (∀ r ∈ st.store, r.field ∈ ((applyChanges st.cache (c :: cs)).1).map Ev.field) := by
  have hfilter : st.store.filter (fun r => decide (0 < r.updatedAt)) = st.store := by
    rw [List.filter_eq_self]
    intro a ha
    simpa using h3 a ha
  have hne : pollQuery st.store 0 ≠ [] := by
    unfold pollQuery
    rw [hfilter]
    rcases hs : st.store with _ | ⟨x, xs⟩
    · exact absurd hs h2
    · simp only [sortByUpdatedAt]
      exact insEntry_ne_nil x (sortByUpdatedAt xs)
  rcases hq : pollQuery st.store 0 with _ | ⟨c, cs⟩
  · exact absurd hq hne
  refine ⟨c, cs, rfl, ?_, ?_, ?_⟩
  · unfold onReloadRequest handleRefreshConfiguration
    simp [h1, hq]
  · unfold onReloadRequest
    simp [h1]
  · intro r hr
    rw [applyChanges_fields]
    have hmem : r ∈ c :: cs := by
      rw [← hq]
      unfold pollQuery
      rw [hfilter, mem_sortByUpdatedAt]
      exact hr
    exact List.mem_map.mpr ⟨r, hmem, rfl⟩

/-- Witness for C1's amended claim at `c1St`. -/
theorem onReloadRequest_dispatch_witness :
    c1St.cronWorks = false ∧ c1St.store ≠ [] ∧ (∀ r ∈ c1St.store, 0 < r.updatedAt) ∧
    (∃ c cs, pollQuery c1St.store 0 = c :: cs ∧
      (onReloadRequest c1St).2.2 =
        [Act.rangeScan 0,
         Act.emit EvName.updated (applyChanges c1St.cache (c :: cs)).1,
         Act.emit EvName.modified (applyChanges c1St.cache (c :: cs)).1] ∧
      (onReloadRequest c1St).1 = ReloadResult.done (onReloadRequest c1St).2.1.cache ∧
      (∀ r ∈ c1St.store, r.field ∈ ((applyChanges c1St.cache (c :: cs)).1).map Ev.field)) :=
  ⟨by decide, by decide, by decide,
   onReloadRequest_dispatch c1St (by decide) (by decide) (by decide)⟩

end ConfigurationDbService

namespace ConfigurationDbService

variable {V : Type}

theorem getWildcard_of_absent (key : Str) (st : St V)
    (h : slotGet st.cache (notExisting ++ key) = none) :
    getWildcard key st =
      (some (Slot.wmap ((st.store.filter
          (fun r => isPre (lowerStr key) (lowerStr r.field))).foldl
            (fun acc r => mput acc (r.field.drop key.length) r.value) [])),
       ⟨slotPut st.cache (notExisting ++ key)
          (Slot.wmap ((st.store.filter
            (fun r => isPre (lowerStr key) (lowerStr r.field))).foldl
              (fun acc r => mput acc (r.field.drop key.length) r.value) [])),
        st.store, st.updatedAt, st.cronWorks⟩,
       [Act.scan key]) := by
  unfold getWildcard
  simp [h]

theorem set_then_rescan (st1 : St V) (p s : Str) (v : V) (now : Nat)
    (hcol : isPre (p ++ s) (notExisting ++ (p ++ s)) = false)
    (huniq : ∀ r ∈ st1.store, isPre (lowerStr p) (lowerStr r.field) = true →
        r.field.drop p.length = s → r.field = p ++ s)
    (hcase : slotGet st1.cache (p ++ s) = none ∨
             slotGet st1.cache (p ++ s) = some Slot.neg ∨
             ((∃ w, slotGet st1.cache (p ++ s) = some (Slot.pos w)) ∧
              ∃ r ∈ st1.store, r.field = p ++ s)) :
    ∃ st2 tr2, set (p ++ s) v now st1 = some (v, st2, tr2) ∧
      slotGet st2.cache (notExisting ++ p) = none ∧
      (getWildcard p st2).2.2 = [Act.scan p] ∧
      ∃ m, (getWildcard p st2).1 = some (Slot.wmap m) ∧ mget m s = some v := by
  have hpre : isPre (notExisting ++ p) (notExisting ++ (p ++ s)) = true := by
    rw [← List.append_assoc]
    exact isPre_append _ _
  have hrowpred : isPre (lowerStr p) (lowerStr (p ++ s)) = true := by
    rw [lowerStr_append]
    exact isPre_append _ _
  have hinv : slotGet (deleteWildCards (p ++ s)
      (slotPut st1.cache (p ++ s) (Slot.pos v))) (notExisting ++ p) = none := by
    rw [slotGet_deleteWildCards]
    simp [hpre]
  rcases hcase with h | h | ⟨⟨w, h⟩, ⟨r0, hr0, hf0⟩⟩
  case inl | inr.inl =>
    -- creation branch: the row is appended at the end of the store, so the
    -- suffix-map fold writes it last and its value wins the lookup.
    refine ⟨⟨deleteWildCards (p ++ s) (slotPut st1.cache (p ++ s) (Slot.pos v)),
        st1.store ++ [⟨p ++ s, v, now⟩], st1.updatedAt, st1.cronWorks⟩,
        [Act.emit EvName.created [⟨p ++ s, none, v⟩],
         Act.emit EvName.set [⟨p ++ s, none, v⟩]],
        ?_, hinv, ?_, ?_⟩
    · first
      | exact set_create_eq st1 (p ++ s) v now (Or.inl h) hcol
      | exact set_create_eq st1 (p ++ s) v now (Or.inr h) hcol
    · rw [getWildcard_of_absent p _ hinv]
    · rw [getWildcard_of_absent p _ hinv]
      refine ⟨_, rfl, ?_⟩
      have hfil : (st1.store ++ [(⟨p ++ s, v, now⟩ : Entry V)]).filter
          (fun r => isPre (lowerStr p) (lowerStr r.field)) =
          st1.store.filter (fun r => isPre (lowerStr p) (lowerStr r.field)) ++
            [(⟨p ++ s, v, now⟩ : Entry V)] := by
        rw [List.filter_append]
        simp [hrowpred]
      rw [hfil, List.foldl_append]
      simp [mget_put, drop_len_append]
  case inr.inr.intro.intro =>
    -- in-place-save branch: every scanned row whose suffix is `s` carries
    -- the saved value, because by `huniq` only the row `p ++ s` can
    -- produce that suffix.
    refine ⟨⟨deleteWildCards (p ++ s) (slotPut st1.cache (p ++ s) (Slot.pos v)),
        saveStore st1.store (p ++ s) v now, st1.updatedAt, st1.cronWorks⟩,
        [Act.emit EvName.set [⟨p ++ s, some w, v⟩]], ?_, hinv, ?_, ?_⟩
    · simp [set, h]
    · rw [getWildcard_of_absent p _ hinv]
    · rw [getWildcard_of_absent p _ hinv]
      refine ⟨_, rfl, ?_⟩
      have hall : ∀ r' ∈ (saveStore st1.store (p ++ s) v now).filter
          (fun r => isPre (lowerStr p) (lowerStr r.field)),
          r'.field.drop p.length = s → r'.value = v := by
        intro r' hr' hs'
        have hmem := List.mem_filter.mp hr'
        rcases List.mem_map.mp hmem.1 with ⟨r, hrmem, hgr⟩
        by_cases hf : r.field = p ++ s
        · rw [← hgr, if_pos hf]
        · exfalso
          have hr'r : r' = r := by rw [← hgr, if_neg hf]
          apply hf
          apply huniq r hrmem
          · have := hmem.2
            rw [hr'r] at this
            exact this
          · rw [← hr'r]
            exact hs'
      have hex : ∃ r' ∈ (saveStore st1.store (p ++ s) v now).filter
          (fun r => isPre (lowerStr p) (lowerStr r.field)),
          r'.field.drop p.length = s := by
        refine ⟨⟨r0.field, v, now⟩, ?_, ?_⟩
        · apply List.mem_filter.mpr
          refine ⟨?_, ?_⟩
          · apply List.mem_map.mpr
            exact ⟨r0, hr0, by rw [if_pos hf0]⟩
          · show isPre (lowerStr p) (lowerStr r0.field) = true
            rw [hf0]
            exact hrowpred
        · show r0.field.drop p.length = s
          rw [hf0]
          exact drop_len_append p s
      exact mget_foldl_of_all (fun r => r.field.drop p.length) s v _ [] hall (Or.inl hex)

end ConfigurationDbService

namespace ConfigurationDbService

variable {V : Type}

/-- Claim C4: after `getWildcard(p)` has cached a mapping `M`, a subsequent
`set(p ++ s, v)` removes the cached wildcard slot for `p`, so the next
`getWildcard(p)` runs a fresh prefix scan (its trace is exactly the scan) and
the mapping it returns sends `s` to `v`.  The hypotheses assert that the
starting slot for `p ++ s` has one of the shapes a configuration key can have
(with a positively cached key also persisted), that no other persisted row
scanning under `p` yields the suffix `s` (`field` is unique up to case), and
that `p ++ s` is not itself a leading segment of its own `not-existing:`
search key. -/
theorem getWildcard_invalidation (st : St V) (p s : Str) (v : V) (now : Nat)
    (M : List (Str × V))
    (_hM : (getWildcard p st).1 = some (Slot.wmap M))
    (hcol : isPre (p ++ s) (notExisting ++ (p ++ s)) = false)
    (huniq : ∀ r ∈ st.store, isPre (lowerStr p) (lowerStr r.field) = true →
        r.field.drop p.length = s → r.field = p ++ s)
    (hcase : slotGet (getWildcard p st).2.1.cache (p ++ s) = none ∨
             slotGet (getWildcard p st).2.1.cache (p ++ s) = some Slot.neg ∨
             ((∃ w, slotGet (getWildcard p st).2.1.cache (p ++ s) = some (Slot.pos w)) ∧
              ∃ r ∈ st.store, r.field = p ++ s)) :
    ∃ st2 tr2, set (p ++ s) v now (getWildcard p st).2.1 = some (v, st2, tr2) ∧
      slotGet st2.cache (notExisting ++ p) = none ∧
      (getWildcard p st2).2.2 = [Act.scan p] ∧
      ∃ m, (getWildcard p st2).1 = some (Slot.wmap m) ∧ mget m s = some v := by
  have hst : (getWildcard p st).2.1.store = st.store := getWildcard_store p st
  apply set_then_rescan _ p s v now hcol
  · rw [hst]
    exact huniq
  · rcases hcase with h | h | ⟨hw, hr⟩
    · exact Or.inl h
    · exact Or.inr (Or.inl h)
    · refine Or.inr (Or.inr ⟨hw, ?_⟩)
      rw [hst]
      exact hr

/-- Witness for C4: store `{a.b ↦ 1}`, `getWildcard("a.")` caches
`{b ↦ 1}`, then `set("a.d", 3)`; the rescan returns a mapping with
`d ↦ 3`. -/
theorem getWildcard_invalidation_witness :
    ((getWildcard (("a.").data) c4St).1 = some (Slot.wmap [((("b").data), 1)])) ∧
    (isPre ((("a.").data) ++ ("d").data)
      (notExisting ++ ((("a.").data) ++ ("d").data)) = false) ∧
    (∃ st2 tr2,
      set ((("a.").data) ++ ("d").data) 3 2 (getWildcard (("a.").data) c4St).2.1
        = some (3, st2, tr2) ∧
      slotGet st2.cache (notExisting ++ ("a.").data) = none ∧
      (getWildcard (("a.").data) st2).2.2 = [Act.scan (("a.").data)] ∧
      ∃ m, (getWildcard (("a.").data) st2).1 = some (Slot.wmap m) ∧
        mget m (("d").data) = some 3) :=
  ⟨by decide, by decide,
   getWildcard_invalidation c4St (("a.").data) (("d").data) 3 2 [((("b").data), 1)]
     (by decide) (by decide) (by decide) (Or.inl (by decide))⟩

end ConfigurationDbService
